import Mathlib

/-!
Verification development for the `lob_event_extractor` repository.

The definitions below are a shallow embedding of
`src/lob_event_extractor/extractor.py`.  Python floats are modelled as
rationals; the IEEE not-a-number value used as the invalid-mid sentinel is
modelled by an explicit constructor of `PyFloat`.  Python dictionaries
mapping price to volume are modelled as association lists so that the
presence of a stored zero-volume level is observable.  Fallible Python
expressions (the `math.isnan(None)` call in `parse_file`) are modelled with
`Except`.
-/

set_option allowUnsafeReducibility true

attribute [local semireducible] Rat.mul Rat.inv Rat.add Rat.sub Rat.neg Rat.div

/-- Model of a finite Python float value together with the `nan` sentinel
returned by `LOBEventExtractor._mid_price` when a book side is empty. -/
inductive PyFloat
  | nan : PyFloat
  | num : ℚ → PyFloat
deriving DecidableEq

/-- Python runtime errors that the embedded code can raise. -/
inductive PyError
  | typeError : PyError
deriving DecidableEq

/-- Model of Python `x != y` on floats: comparisons against the
not-a-number value are always unequal, including `nan != nan`. -/
def pyNe : PyFloat → PyFloat → Bool
  | PyFloat.nan, _ => true
  | _, PyFloat.nan => true
  | PyFloat.num a, PyFloat.num b => decide (a ≠ b)

/-- Model of Python `last != mid` where `last` may also be `None`
(`None != x` is `True` in Python). -/
def pyNeO : Option PyFloat → PyFloat → Bool
  | none, _ => true
  | some f, m => pyNe f m

/-- Model of `math.isnan` on a float value. -/
def isnanF : PyFloat → Bool
  | PyFloat.nan => true
  | PyFloat.num _ => false

/-- Model of `math.isnan` applied to an optional float: applying it to
`None` raises `TypeError`, as in `parse_file` line 179. -/
def isnanPy : Option PyFloat → Except PyError Bool
  | none => Except.error PyError.typeError
  | some f => Except.ok (isnanF f)

/-- One side of the book, `extractor.py` line 45 or 46: a Python dict from
price to volume, modelled as an association list in insertion order. -/
abbrev Book := List (ℚ × ℚ)

/-- Model of `dict.get(price, 0.0)` (`extractor.py` lines 106 and 135). -/
def Book.get (b : Book) (p : ℚ) : ℚ :=
  match b.lookup p with
  | some v => v
  | none => 0

/-- Model of `d[price] = vol` on a Python dict (`extractor.py` lines 130
and 148): overwrite in place if the key is present, else append. -/
def Book.set (b : Book) (p v : ℚ) : Book :=
  if (b.lookup p).isSome then
    b.map (fun qw => if qw.1 = p then (p, v) else qw)
  else
    b ++ [(p, v)]

/-- Model of `d.pop(price, None)` (`extractor.py` lines 123 and 141). -/
def Book.pop (b : Book) (p : ℚ) : Book :=
  b.filter (fun qw => decide (qw.1 ≠ p))

/-- Model of `d.keys()`. -/
def Book.keys (b : Book) : List ℚ :=
  b.map Prod.fst

/-- Model of building a dict from a list of `[price, volume]` pairs as in
the comprehensions of `process_snapshot` (`extractor.py` lines 77 and 78);
duplicate prices overwrite, last wins. -/
def dictOf (pairs : List (ℚ × ℚ)) : Book :=
  pairs.foldl (fun b pv => Book.set b pv.1 pv.2) []

/-- Insert into an ascending list, keeping earlier elements first on ties. -/
def insertAsc (x : ℚ) : List ℚ → List ℚ
  | [] => [x]
  | y :: ys => if x ≤ y then x :: y :: ys else y :: insertAsc x ys

/-- Model of Python `sorted(keys)` (`extractor.py` line 59).  On the
duplicate-free key lists produced by a dict this agrees with any correct
ascending sort. -/
def sortAsc (l : List ℚ) : List ℚ :=
  l.foldr insertAsc []

/-- Insert into a descending list, keeping earlier elements first on ties. -/
def insertDesc (x : ℚ) : List ℚ → List ℚ
  | [] => [x]
  | y :: ys => if y ≤ x then x :: y :: ys else y :: insertDesc x ys

/-- Model of Python `sorted(keys, reverse=True)` (`extractor.py` line 62). -/
def sortDesc (l : List ℚ) : List ℚ :=
  l.foldr insertDesc []

/-- The two book sides. -/
inductive Side
  | ask : Side
  | bid : Side
deriving DecidableEq

/-- State of a `LOBEventExtractor` instance (`extractor.py` lines 42-50):
the depth threshold, the two price-to-volume dicts, the two cached sorted
price lists (`None` when stale), and the last recorded mid price
(`None` until first recorded). -/
structure Extractor where
  max_depth : ℤ
  asks : Book
  bids : Book
  sorted_asks : Option (List ℚ)
  sorted_bids : Option (List ℚ)
  last_mid_price : Option PyFloat
deriving DecidableEq

/-- Model of `LOBEventExtractor.__init__` (`extractor.py` lines 42-50). -/
def initExtractor (max_depth : ℤ) : Extractor :=
  ⟨max_depth, [], [], none, none, none⟩

/-- Model of `_invalidate_sorted` (`extractor.py` lines 52-54). -/
def invalidateSorted (s : Extractor) : Extractor :=
  { s with sorted_asks := none, sorted_bids := none }

/-- Model of `_ensure_sorted` (`extractor.py` lines 56-62): fill each
stale cache from the current keys, ascending for asks, descending for bids. -/
def ensureSorted (s : Extractor) : Extractor :=
  { s with
    sorted_asks :=
      match s.sorted_asks with
      | some l => some l
      | none => some (sortAsc (Book.keys s.asks))
    sorted_bids :=
      match s.sorted_bids with
      | some l => some l
      | none => some (sortDesc (Book.keys s.bids)) }

/-- Model of `_mid_price` (`extractor.py` lines 64-71): the nan sentinel
when either side is empty, else the average of best bid and best ask. -/
def midPriceState (s : Extractor) : PyFloat :=
  if s.bids.isEmpty || s.asks.isEmpty then PyFloat.nan
  else
    PyFloat.num
      (((Book.keys s.bids).foldl max ((Book.keys s.bids).headD 0)
        + (Book.keys s.asks).foldl min ((Book.keys s.asks).headD 0)) / 2)

/-- Model of `process_snapshot` (`extractor.py` lines 73-79): both dicts
are rebuilt verbatim from the input pairs, then the caches are marked
stale. -/
def process_snapshot (s : Extractor) (asks bids : List (ℚ × ℚ)) : Extractor :=
  invalidateSorted { s with asks := dictOf asks, bids := dictOf bids }

/-- Model of `math.isclose(p, price)` with the default relative tolerance
1e-9 and absolute tolerance 0 (`extractor.py` line 93). -/
def isclose (a b : ℚ) : Bool :=
  decide (|a - b| ≤ 1 / 10 ^ 9 * max |a| |b|)

/-- The per-entry test of the `_depth_of_price` scan (`extractor.py`
line 93): close to the query price, or already past it in the native order
of the side. -/
def hit (side : Side) (price p : ℚ) : Bool :=
  isclose p price
    || (side == Side.ask && decide (price ≤ p))
    || (side == Side.bid && decide (p ≤ price))

/-- The scan loop of `_depth_of_price` (`extractor.py` lines 92-95):
index of the first entry satisfying `hit`, else the length of the list. -/
def depthAux (side : Side) (price : ℚ) : List ℚ → ℕ
  | [] => 0
  | p :: ps => if hit side price p then 0 else depthAux side price ps + 1

/-- Model of `_depth_of_price` (`extractor.py` lines 81-95): ensure the
sorted caches are filled, pick the list for the side, scan it.  Returns
the depth together with the state whose caches are now filled. -/
def depth_of_price (s : Extractor) (price : ℚ) (side : Side) : ℕ × Extractor :=
  let s1 := ensureSorted s
  let prices :=
    match side with
    | Side.ask => s1.sorted_asks.getD []
    | Side.bid => s1.sorted_bids.getD []
  (depthAux side price prices, s1)

/-- One emitted event (`extractor.py` lines 20-29). -/
structure LOBEvent where
  action : String
  price : ℚ
  volume : ℚ
  depth : ℕ
  index : ℕ
  mid_price : PyFloat
  previous_vol : ℚ
  volume_change_normalized : ℚ
deriving DecidableEq

/-- Action string of the `vol == 0` branch for each side
(`extractor.py` lines 114 and 140). -/
def marketAction : Side → String
  | Side.ask => "market_buy"
  | Side.bid => "market_sell"

/-- Action string of the `change > 0` branch for each side
(`extractor.py` lines 127 and 145). -/
def addedAction : Side → String
  | Side.ask => "sell_limit_added"
  | Side.bid => "buy_limit_added"

/-- Action string of the `change < 0` branch for each side
(`extractor.py` lines 129 and 147). -/
def canceledAction : Side → String
  | Side.ask => "sell_limit_canceled"
  | Side.bid => "buy_limit_canceled"

/-- The event-emission part of one loop iteration of `process_delta`
(`extractor.py` lines 111-129 for asks, 138-147 for bids): gated on
`depth < max_depth`; `vol == 0` emits the market action with magnitude
`-change`; otherwise `change > 0` emits the added action and `change < 0`
the canceled action, `change == 0` emits nothing. -/
def classifyUpdate (side : Side) (idx : ℕ) (depth : ℕ) (maxd : ℤ)
    (mid : PyFloat) (prev_vol price vol : ℚ) : List LOBEvent :=
  let change := vol - prev_vol
  if vol = 0 then
    if (depth : ℤ) < maxd then
      [⟨marketAction side, price, -change, depth, idx, mid, prev_vol,
        if prev_vol > 0 then change / prev_vol else 1⟩]
    else []
  else
    if (depth : ℤ) < maxd then
      if change > 0 then
        [⟨addedAction side, price, change, depth, idx, mid, prev_vol,
          if prev_vol > 0 then change / prev_vol else 1⟩]
      else if change < 0 then
        [⟨canceledAction side, price, -change, depth, idx, mid, prev_vol,
          if prev_vol > 0 then -change / prev_vol else 1⟩]
      else []
    else []

/-- The book mutation of one loop iteration of `process_delta`
(`extractor.py` lines 123, 130, 141, 148): remove the level when the new
volume is zero, else store the new volume. -/
def mutate (b : Book) (price vol : ℚ) : Book :=
  if vol = 0 then Book.pop b price else Book.set b price vol

/-- Read the dict of a side. -/
def bookOf (s : Extractor) : Side → Book
  | Side.ask => s.asks
  | Side.bid => s.bids

/-- Replace the dict of a side. -/
def setBookOf (s : Extractor) (side : Side) (b : Book) : Extractor :=
  match side with
  | Side.ask => { s with asks := b }
  | Side.bid => { s with bids := b }

/-- One loop iteration of `process_delta` for one `[price, volume]` update
(`extractor.py` lines 104-130 for asks, 133-148 for bids).  The previous
volume is read from the live dict; the depth comes from the cached sorted
view (the redundant conditional of lines 108 and 136, identical in both
branches, is kept); the mid price passed to the event is the one of the
book before this mutation; finally the dict is mutated. -/
def processUpdate (side : Side) (idx : ℕ) (st : Extractor) (u : ℚ × ℚ) :
    Extractor × List LOBEvent :=
  let price := u.1
  let vol := u.2
  let prev_vol := (bookOf st side).get price
  let dres :=
    if prev_vol > 0 then depth_of_price st price side
    else depth_of_price st price side
  let st1 := dres.2
  (setBookOf st1 side (mutate (bookOf st1 side) price vol),
   classifyUpdate side idx dres.1 st1.max_depth (midPriceState st1) prev_vol price vol)

/-- Accumulating step used by the loops of `process_delta`: run one
update, append its events to the shared event list. -/
def stepUpdate (side : Side) (idx : ℕ) (acc : Extractor × List LOBEvent)
    (u : ℚ × ℚ) : Extractor × List LOBEvent :=
  let r := processUpdate side idx acc.1 u
  (r.1, acc.2 ++ r.2)

/-- Model of `process_delta` (`extractor.py` lines 97-152): all ask
updates in input order, then all bid updates in input order, appending
into one shared event list, then both sorted caches are invalidated. -/
def process_delta (st : Extractor) (asks bids : List (ℚ × ℚ)) (idx : ℕ) :
    Extractor × List LOBEvent :=
  let acc1 := asks.foldl (stepUpdate Side.ask idx) (st, [])
  let acc2 := bids.foldl (stepUpdate Side.bid idx) acc1
  (invalidateSorted acc2.1, acc2.2)

/-- One parsed NDJSON input line (section 6 of the spec): a snapshot or a
delta message, each carrying the `a` and `b` update lists. -/
inductive Msg
  | snapshot (a b : List (ℚ × ℚ)) : Msg
  | delta (a b : List (ℚ × ℚ)) : Msg
deriving DecidableEq

/-- The mid-price change gate of `infer_events_from_lines`
(`extractor.py` line 203): report when no previous observation is
recorded, or when the previous one compares unequal under Python float
inequality. -/
def midGate (last : Option PyFloat) (mid : PyFloat) : Bool :=
  last.isNone || pyNeO last mid

/-- Loop body of `infer_events_from_lines` (`extractor.py` lines 195-206):
snapshots only replace the book; any other line is processed as a delta,
and its events and mid price are recorded when the gate fires. -/
def inferLoop : List Msg → Extractor → ℕ → List LOBEvent → List PyFloat →
    List LOBEvent × List PyFloat
  | [], _, _, events, mid_prices => (events, mid_prices)
  | Msg.snapshot a b :: rest, st, idx, events, mid_prices =>
      inferLoop rest (process_snapshot st a b) (idx + 1) events mid_prices
  | Msg.delta a b :: rest, st, idx, events, mid_prices =>
      let r := process_delta st a b idx
      let mid := midPriceState r.1
      if midGate r.1.last_mid_price mid then
        inferLoop rest { r.1 with last_mid_price := some mid } (idx + 1)
          (events ++ r.2) (mid_prices ++ [mid])
      else
        inferLoop rest r.1 (idx + 1) events mid_prices

/-- Model of `infer_events_from_lines` (`extractor.py` lines 188-207);
the extractor is built with the default `max_depth = 50`. -/
def infer_events_from_lines (msgs : List Msg) : List LOBEvent × List PyFloat :=
  inferLoop msgs (initExtractor 50) 0 [] []

/-- Loop body of `parse_file` (`extractor.py` lines 167-186): process the
line, then evaluate the change gate, whose first conjunct applies
`math.isnan` to `last_mid_price` and therefore raises `TypeError` while
that field is still `None`. -/
def parseLoop : List Msg → Extractor → ℕ →
    Except PyError (List (ℕ × List LOBEvent × PyFloat))
  | [], _, _ => Except.ok []
  | m :: rest, st, idx =>
      let pr :=
        match m with
        | Msg.snapshot a b => (process_snapshot st a b, [])
        | Msg.delta a b => process_delta st a b idx
      let st1 := pr.1
      let mid := midPriceState st1
      match isnanPy st1.last_mid_price with
      | Except.error e => Except.error e
      | Except.ok lastNan =>
          let changed :=
            if lastNan && !(isnanF mid) then true
            else st1.last_mid_price.isNone || pyNeO st1.last_mid_price mid
          if changed then
            match parseLoop rest { st1 with last_mid_price := some mid } (idx + 1) with
            | Except.error e => Except.error e
            | Except.ok ys => Except.ok ((idx, pr.2, mid) :: ys)
          else
            parseLoop rest st1 (idx + 1)

/-- Model of `parse_file` (`extractor.py` lines 154-186) on an
already-decoded list of messages. -/
def parse_file (max_depth : ℤ) (msgs : List Msg) :
    Except PyError (List (ℕ × List LOBEvent × PyFloat)) :=
  parseLoop msgs (initExtractor max_depth) 0

/-! Lemmas about the dict model. -/

/-- Unfolding of `List.lookup` on a cons cell with propositional equality
instead of the boolean one. -/
theorem lookup_pair_cons (k w q : ℚ) (tl : Book) :
    List.lookup q ((k, w) :: tl) = if q = k then some w else List.lookup q tl := by
  by_cases h : q = k
  · have hb : (q == k) = true := beq_iff_eq.mpr h
    simp [List.lookup_cons, hb, h]
  · have hb : (q == k) = false := by simp [h]
    simp [List.lookup_cons, hb, h]

/-- Unfolding of `Book.pop` on a cons cell. -/
theorem pop_cons (k w p : ℚ) (tl : Book) :
    Book.pop ((k, w) :: tl) p
      = if k = p then Book.pop tl p else (k, w) :: Book.pop tl p := by
  by_cases h : k = p <;> simp [Book.pop, List.filter_cons, h]

/-- Removing the key `p` makes lookups of `p` fail and leaves other keys
alone. -/
theorem lookup_pop (b : Book) (p q : ℚ) :
    List.lookup q (Book.pop b p) = if q = p then none else List.lookup q b := by
  induction b with
  | nil => simp [Book.pop]
  | cons hd tl ih =>
    obtain ⟨k, w⟩ := hd
    rw [pop_cons]
    by_cases hk : k = p
    · rw [if_pos hk, ih, lookup_pair_cons]
      by_cases hq : q = p
      · simp [hq]
      · have hqk : ¬ q = k := fun h => hq (hk ▸ h)
        simp [hq, hqk]
    · rw [if_neg hk, lookup_pair_cons, lookup_pair_cons, ih]
      by_cases hq : q = k
      · have hqp : ¬ q = p := fun h => hk ((hq.symm.trans h))
        simp [hq, hqp, hk]
      · simp [hq]

/-- Removing the key `p` makes `get p` read 0 and leaves other keys alone. -/
theorem Book.get_pop (b : Book) (p q : ℚ) :
    Book.get (Book.pop b p) q = if q = p then 0 else Book.get b q := by
  unfold Book.get
  rw [lookup_pop]
  by_cases hq : q = p <;> simp [hq]

/-- Lookup after the in-place overwrite map used by `Book.set` when the
key is present. -/
theorem lookup_map_set (b : Book) (p v q : ℚ) :
    (b.map (fun qw => if qw.1 = p then (p, v) else qw)).lookup q
      = if q = p then Option.map (fun _ => v) (b.lookup p) else b.lookup q := by
  induction b with
  | nil => simp
  | cons hd tl ih =>
    obtain ⟨k, w⟩ := hd
    simp only [List.map_cons]
    by_cases hk : k = p
    · subst hk
      simp only [if_pos rfl]
      by_cases hq : q = k
      · simp [lookup_pair_cons, hq]
      · simp [lookup_pair_cons, hq, ih]
    · have hpk : ¬ p = k := fun h => hk h.symm
      simp only [if_neg hk]
      by_cases hq : q = k
      · have hqp : ¬ q = p := fun h => hk (hq.symm.trans h)
        simp [lookup_pair_cons, hq, hqp, hk]
      · simp [lookup_pair_cons, hq, hpk, ih]

/-- Lookup after appending a single fresh pair. -/
theorem lookup_append_single (b : Book) (p v q : ℚ) :
    (b ++ [(p, v)]).lookup q
      = match b.lookup q with
        | some w => some w
        | none => if q = p then some v else none := by
  induction b with
  | nil => by_cases hq : q = p <;> simp [lookup_pair_cons, hq]
  | cons hd tl ih =>
    obtain ⟨k, w⟩ := hd
    rw [List.cons_append, lookup_pair_cons, lookup_pair_cons, ih]
    by_cases hq : q = k <;> simp [hq]

/-- The dict write `d[p] = v` sets `get p` to `v` and leaves other keys
alone, whether or not `p` was present. -/
theorem Book.get_set (b : Book) (p v q : ℚ) :
    Book.get (Book.set b p v) q = if q = p then v else Book.get b q := by
  unfold Book.set
  by_cases hp : (b.lookup p).isSome
  · rw [if_pos hp]
    obtain ⟨w, hw⟩ := Option.isSome_iff_exists.mp hp
    by_cases hq : q = p <;> simp [Book.get, lookup_map_set, hq, hw]
  · rw [if_neg hp]
    have hnone : b.lookup p = none := Option.not_isSome_iff_eq_none.mp hp
    by_cases hq : q = p
    · subst hq
      simp [Book.get, lookup_append_single, hnone]
    · simp only [Book.get, lookup_append_single, hq, ite_false]
      cases h2 : b.lookup q <;> simp [h2, hq]

/-- The per-update mutation of `process_delta` sets `get p` to the new
volume (0 when the level is removed) and leaves other prices alone. -/
theorem Book.get_mutate (b : Book) (p v q : ℚ) :
    Book.get (mutate b p v) q = if q = p then v else Book.get b q := by
  by_cases hv : v = 0
  · subst hv
    simp [mutate, Book.get_pop]
  · simp [mutate, hv, Book.get_set]

/-! Structural facts about the extractor state. -/

/-- Overwriting both caches. -/
def setCaches (s : Extractor) (ca cb : Option (List ℚ)) : Extractor :=
  { s with sorted_asks := ca, sorted_bids := cb }

theorem asks_ensureSorted (s : Extractor) : (ensureSorted s).asks = s.asks := rfl

theorem bids_ensureSorted (s : Extractor) : (ensureSorted s).bids = s.bids := rfl

theorem max_depth_ensureSorted (s : Extractor) :
    (ensureSorted s).max_depth = s.max_depth := rfl

theorem last_mid_ensureSorted (s : Extractor) :
    (ensureSorted s).last_mid_price = s.last_mid_price := rfl

theorem midPriceState_ensureSorted (s : Extractor) :
    midPriceState (ensureSorted s) = midPriceState s := rfl

theorem bookOf_ensureSorted (s : Extractor) (side : Side) :
    bookOf (ensureSorted s) side = bookOf s side := by
  cases side <;> rfl

theorem bookOf_setBookOf_same (s : Extractor) (side : Side) (b : Book) :
    bookOf (setBookOf s side b) side = b := by
  cases side <;> rfl

theorem bookOf_setBookOf_other (s : Extractor) (side t : Side) (b : Book)
    (h : side ≠ t) : bookOf (setBookOf s side b) t = bookOf s t := by
  cases side <;> cases t <;> first | rfl | exact absurd rfl h

theorem max_depth_setBookOf (s : Extractor) (side : Side) (b : Book) :
    (setBookOf s side b).max_depth = s.max_depth := by
  cases side <;> rfl

theorem last_mid_setBookOf (s : Extractor) (side : Side) (b : Book) :
    (setBookOf s side b).last_mid_price = s.last_mid_price := by
  cases side <;> rfl

theorem sorted_asks_setBookOf (s : Extractor) (side : Side) (b : Book) :
    (setBookOf s side b).sorted_asks = s.sorted_asks := by
  cases side <;> rfl

theorem sorted_bids_setBookOf (s : Extractor) (side : Side) (b : Book) :
    (setBookOf s side b).sorted_bids = s.sorted_bids := by
  cases side <;> rfl

theorem bookOf_setCaches (s : Extractor) (ca cb : Option (List ℚ)) (side : Side) :
    bookOf (setCaches s ca cb) side = bookOf s side := by
  cases side <;> rfl

theorem midPriceState_setCaches (s : Extractor) (ca cb : Option (List ℚ)) :
    midPriceState (setCaches s ca cb) = midPriceState s := rfl

theorem max_depth_setCaches (s : Extractor) (ca cb : Option (List ℚ)) :
    (setCaches s ca cb).max_depth = s.max_depth := rfl

theorem setBookOf_setCaches (s : Extractor) (ca cb : Option (List ℚ))
    (side : Side) (b : Book) :
    setBookOf (setCaches s ca cb) side b = setCaches (setBookOf s side b) ca cb := by
  cases side <;> rfl

theorem invalidateSorted_setCaches (s : Extractor) (ca cb : Option (List ℚ)) :
    invalidateSorted (setCaches s ca cb) = invalidateSorted s := rfl

theorem asks_invalidateSorted (s : Extractor) :
    (invalidateSorted s).asks = s.asks := rfl

theorem bids_invalidateSorted (s : Extractor) :
    (invalidateSorted s).bids = s.bids := rfl

theorem last_mid_invalidateSorted (s : Extractor) :
    (invalidateSorted s).last_mid_price = s.last_mid_price := rfl

/-- Filling stale caches from a fully stale state. -/
theorem ensureSorted_of_none (s : Extractor) (h1 : s.sorted_asks = none)
    (h2 : s.sorted_bids = none) :
    ensureSorted s
      = setCaches s (some (sortAsc (Book.keys s.asks)))
          (some (sortDesc (Book.keys s.bids))) := by
  unfold ensureSorted setCaches
  rw [h1, h2]

/-- Filling caches is the identity when both are already present. -/
theorem ensureSorted_of_some (s : Extractor) (A B : List ℚ)
    (h1 : s.sorted_asks = some A) (h2 : s.sorted_bids = some B) :
    ensureSorted s = s := by
  obtain ⟨md, ak, bk, sa, sb, lm⟩ := s
  dsimp only at h1 h2
  subst h1
  subst h2
  rfl

/-! Characterization of one update step. -/

/-- One `process_delta` loop iteration, written as mutation plus
classification: the depth comes from `_depth_of_price`, the previous
volume and the mid price from the book as it stands when the update is
reached, and the caches filled by `_ensure_sorted` stay in the state. -/
theorem processUpdate_eq (side : Side) (idx : ℕ) (st : Extractor) (u : ℚ × ℚ) :
    processUpdate side idx st u
      = (setBookOf (ensureSorted st) side (mutate (bookOf st side) u.1 u.2),
         classifyUpdate side idx (depth_of_price st u.1 side).1 st.max_depth
           (midPriceState st) ((bookOf st side).get u.1) u.1 u.2) := by
  simp only [processUpdate, ite_self]
  rw [show (depth_of_price st u.1 side).2 = ensureSorted st from rfl,
    bookOf_ensureSorted, max_depth_ensureSorted, midPriceState_ensureSorted]

/-- Every event list produced by the classification step has at most one
element. -/
theorem classifyUpdate_length (side : Side) (idx : ℕ) (depth : ℕ) (maxd : ℤ)
    (mid : PyFloat) (prev_vol price vol : ℚ) :
    (classifyUpdate side idx depth maxd mid prev_vol price vol).length ≤ 1 := by
  simp only [classifyUpdate]
  split_ifs <;> simp

/-- Every event produced by the classification step carries the depth, the
gate bound, the mid price, the previous volume and the price it was built
from. -/
theorem mem_classifyUpdate {e : LOBEvent} {side : Side} {idx depth : ℕ}
    {maxd : ℤ} {mid : PyFloat} {prev_vol price vol : ℚ}
    (h : e ∈ classifyUpdate side idx depth maxd mid prev_vol price vol) :
    e.depth = depth ∧ (depth : ℤ) < maxd ∧ e.mid_price = mid
      ∧ e.previous_vol = prev_vol ∧ e.price = price := by
  simp only [classifyUpdate] at h
  split_ifs at h <;> simp_all

/-! Unfolding the two loops of `process_delta`. -/

/-- State after processing a list of updates of one side in input order. -/
def sideFinal (side : Side) (idx : ℕ) : List (ℚ × ℚ) → Extractor → Extractor
  | [], st => st
  | u :: us, st => sideFinal side idx us (processUpdate side idx st u).1

/-- Per-update event contributions of one side, in input order. -/
def sideTrace (side : Side) (idx : ℕ) : List (ℚ × ℚ) → Extractor → List (List LOBEvent)
  | [], _ => []
  | u :: us, st =>
      (processUpdate side idx st u).2 :: sideTrace side idx us (processUpdate side idx st u).1

/-- States at the entry of each update of one side, in input order. -/
def stateTrace (side : Side) (idx : ℕ) : List (ℚ × ℚ) → Extractor → List Extractor
  | [], _ => []
  | u :: us, st => st :: stateTrace side idx us (processUpdate side idx st u).1

/-- The accumulating fold of one `process_delta` loop is the final state
paired with the concatenation of the per-update contributions. -/
theorem foldl_stepUpdate (side : Side) (idx : ℕ) (us : List (ℚ × ℚ)) :
    ∀ (st : Extractor) (evs : List LOBEvent),
      us.foldl (stepUpdate side idx) (st, evs)
        = (sideFinal side idx us st, evs ++ (sideTrace side idx us st).flatten) := by
  induction us with
  | nil => intro st evs; simp [sideFinal, sideTrace]
  | cons u us ih =>
    intro st evs
    rw [List.foldl_cons]
    show us.foldl (stepUpdate side idx)
        ((processUpdate side idx st u).1, evs ++ (processUpdate side idx st u).2) = _
    rw [ih]
    simp [sideFinal, sideTrace]

/-- `process_delta`, unfolded: the bid loop starts from the state the ask
loop produced, the event list is ask contributions then bid contributions,
and the caches are invalidated at the very end. -/
theorem process_delta_eq (st : Extractor) (asks bids : List (ℚ × ℚ)) (idx : ℕ) :
    process_delta st asks bids idx
      = (invalidateSorted (sideFinal Side.bid idx bids (sideFinal Side.ask idx asks st)),
         (sideTrace Side.ask idx asks st).flatten
           ++ (sideTrace Side.bid idx bids (sideFinal Side.ask idx asks st)).flatten) := by
  simp only [process_delta]
  rw [foldl_stepUpdate]
  rw [foldl_stepUpdate]
  simp

/-! Preservation lemmas along one side of a batch. -/

theorem bookOf_processUpdate_same (side : Side) (idx : ℕ) (st : Extractor)
    (u : ℚ × ℚ) :
    bookOf (processUpdate side idx st u).1 side = mutate (bookOf st side) u.1 u.2 := by
  rw [processUpdate_eq]
  exact bookOf_setBookOf_same _ _ _

theorem bookOf_processUpdate_other (side t : Side) (idx : ℕ) (st : Extractor)
    (u : ℚ × ℚ) (h : side ≠ t) :
    bookOf (processUpdate side idx st u).1 t = bookOf st t := by
  rw [processUpdate_eq]
  rw [bookOf_setBookOf_other _ _ _ _ h, bookOf_ensureSorted]

theorem max_depth_processUpdate (side : Side) (idx : ℕ) (st : Extractor)
    (u : ℚ × ℚ) :
    (processUpdate side idx st u).1.max_depth = st.max_depth := by
  rw [processUpdate_eq, max_depth_setBookOf, max_depth_ensureSorted]

theorem last_mid_processUpdate (side : Side) (idx : ℕ) (st : Extractor)
    (u : ℚ × ℚ) :
    (processUpdate side idx st u).1.last_mid_price = st.last_mid_price := by
  rw [processUpdate_eq, last_mid_setBookOf, last_mid_ensureSorted]

theorem max_depth_sideFinal (side : Side) (idx : ℕ) (us : List (ℚ × ℚ)) :
    ∀ st : Extractor, (sideFinal side idx us st).max_depth = st.max_depth := by
  induction us with
  | nil => intro st; rfl
  | cons u us ih =>
    intro st
    rw [sideFinal, ih, max_depth_processUpdate]

theorem last_mid_sideFinal (side : Side) (idx : ℕ) (us : List (ℚ × ℚ)) :
    ∀ st : Extractor, (sideFinal side idx us st).last_mid_price = st.last_mid_price := by
  induction us with
  | nil => intro st; rfl
  | cons u us ih =>
    intro st
    rw [sideFinal, ih, last_mid_processUpdate]

theorem bookOf_sideFinal_other (side t : Side) (idx : ℕ) (us : List (ℚ × ℚ))
    (h : side ≠ t) :
    ∀ st : Extractor, bookOf (sideFinal side idx us st) t = bookOf st t := by
  induction us with
  | nil => intro st; rfl
  | cons u us ih =>
    intro st
    rw [sideFinal, ih, bookOf_processUpdate_other _ _ _ _ _ h]

/-- Last volume given for a price in a list of updates, if any. -/
def lastVol : List (ℚ × ℚ) → ℚ → Option ℚ
  | [], _ => none
  | u :: us, p =>
      match lastVol us p with
      | some v => some v
      | none => if u.1 = p then some u.2 else none

/-- After one side of a batch, the stored volume at a price is the last
volume given for it in the batch, or the old value if it never occurred. -/
theorem get_sideFinal (side : Side) (idx : ℕ) (us : List (ℚ × ℚ)) :
    ∀ (st : Extractor) (p : ℚ),
      Book.get (bookOf (sideFinal side idx us st) side) p
        = (lastVol us p).getD (Book.get (bookOf st side) p) := by
  induction us with
  | nil => intro st p; rfl
  | cons u us ih =>
    intro st p
    rw [sideFinal, ih, bookOf_processUpdate_same, Book.get_mutate]
    cases h : lastVol us p with
    | some v => simp [lastVol, h]
    | none =>
      by_cases hp : u.1 = p
      · simp [lastVol, h, hp]
      · have hp2 : ¬ p = u.1 := fun h2 => hp h2.symm
        simp [lastVol, h, hp, hp2]

/-- Every event contributed by one side of a batch has depth strictly
below the (unchanged) threshold of the state the batch started from. -/
theorem depth_lt_sideTrace (side : Side) (idx : ℕ) (us : List (ℚ × ℚ)) :
    ∀ (st : Extractor), ∀ l ∈ sideTrace side idx us st, ∀ e ∈ l,
      (e.depth : ℤ) < st.max_depth := by
  induction us with
  | nil => intro st l hl; simp [sideTrace] at hl
  | cons u us ih =>
    intro st l hl e he
    rw [sideTrace] at hl
    rcases List.mem_cons.mp hl with h | h
    · subst h
      have h2 := (processUpdate_eq side idx st u) ▸ he
      have h3 := mem_classifyUpdate (by exact h2)
      exact h3.1 ▸ h3.2.1
    · have h4 := ih (processUpdate side idx st u).1 l h e he
      rwa [max_depth_processUpdate] at h4

/-! Reference formulation of a delta batch with the sorted views fixed to
the ones captured at the start of the batch, following section 4.5 of the
specification. -/

/-- One update step ranked against fixed sorted views `A` (asks) and `B`
(bids); the cache fields of the state are not touched. -/
def processUpdateFixed (A B : List ℚ) (side : Side) (idx : ℕ) (st : Extractor)
    (u : ℚ × ℚ) : Extractor × List LOBEvent :=
  (setBookOf st side (mutate (bookOf st side) u.1 u.2),
   classifyUpdate side idx
     (depthAux side u.1 (match side with | Side.ask => A | Side.bid => B))
     st.max_depth (midPriceState st) ((bookOf st side).get u.1) u.1 u.2)

/-- Accumulating step for the fixed-view formulation. -/
def stepFixed (A B : List ℚ) (side : Side) (idx : ℕ)
    (acc : Extractor × List LOBEvent) (u : ℚ × ℚ) : Extractor × List LOBEvent :=
  let r := processUpdateFixed A B side idx acc.1 u
  (r.1, acc.2 ++ r.2)

/-- Reference delta processing per the specification: capture both sorted
views once from the state at the start of the batch, rank every update of
both sides against them, and invalidate both views only after the whole
batch. -/
def process_delta_prebatch (st : Extractor) (asks bids : List (ℚ × ℚ))
    (idx : ℕ) : Extractor × List LOBEvent :=
  let A := sortAsc (Book.keys st.asks)
  let B := sortDesc (Book.keys st.bids)
  let acc1 := asks.foldl (stepFixed A B Side.ask idx) (st, [])
  let acc2 := bids.foldl (stepFixed A B Side.bid idx) acc1
  (invalidateSorted acc2.1, acc2.2)

theorem sorted_asks_processUpdateFixed (A B : List ℚ) (side : Side) (idx : ℕ)
    (st : Extractor) (u : ℚ × ℚ) :
    (processUpdateFixed A B side idx st u).1.sorted_asks = st.sorted_asks := by
  unfold processUpdateFixed
  exact sorted_asks_setBookOf _ _ _

theorem sorted_bids_processUpdateFixed (A B : List ℚ) (side : Side) (idx : ℕ)
    (st : Extractor) (u : ℚ × ℚ) :
    (processUpdateFixed A B side idx st u).1.sorted_bids = st.sorted_bids := by
  unfold processUpdateFixed
  exact sorted_bids_setBookOf _ _ _

/-- The fixed-view step reads nothing from the cache fields, so it
commutes with overwriting them. -/
theorem processUpdateFixed_setCaches (A B : List ℚ) (side : Side) (idx : ℕ)
    (st : Extractor) (ca cb : Option (List ℚ)) (u : ℚ × ℚ) :
    processUpdateFixed A B side idx (setCaches st ca cb) u
      = ((setCaches (processUpdateFixed A B side idx st u).1 ca cb),
         (processUpdateFixed A B side idx st u).2) := by
  unfold processUpdateFixed
  rw [bookOf_setCaches, midPriceState_setCaches, max_depth_setCaches,
    setBookOf_setCaches]

/-- An update step taken while both caches are already filled is exactly
the fixed-view step against the cached lists. -/
theorem processUpdate_cached (A B : List ℚ) (side : Side) (idx : ℕ)
    (st : Extractor) (u : ℚ × ℚ) (h1 : st.sorted_asks = some A)
    (h2 : st.sorted_bids = some B) :
    processUpdate side idx st u = processUpdateFixed A B side idx st u := by
  rw [processUpdate_eq, ensureSorted_of_some st A B h1 h2]
  unfold processUpdateFixed
  have hd : (depth_of_price st u.1 side).1
      = depthAux side u.1 (match side with | Side.ask => A | Side.bid => B) := by
    unfold depth_of_price
    rw [ensureSorted_of_some st A B h1 h2]
    cases side <;> simp [h1, h2]
  rw [hd]

/-- An update step taken from a fully stale state fills both caches from
the current books and then behaves like the fixed-view step against those
freshly computed lists. -/
theorem processUpdate_uncached (side : Side) (idx : ℕ) (st : Extractor)
    (u : ℚ × ℚ) (h1 : st.sorted_asks = none) (h2 : st.sorted_bids = none) :
    processUpdate side idx st u
      = (setCaches
           (processUpdateFixed (sortAsc (Book.keys st.asks))
             (sortDesc (Book.keys st.bids)) side idx st u).1
           (some (sortAsc (Book.keys st.asks)))
           (some (sortDesc (Book.keys st.bids))),
         (processUpdateFixed (sortAsc (Book.keys st.asks))
           (sortDesc (Book.keys st.bids)) side idx st u).2) := by
  rw [processUpdate_eq, ensureSorted_of_none st h1 h2]
  rw [setBookOf_setCaches]
  unfold processUpdateFixed
  have hd : (depth_of_price st u.1 side).1
      = depthAux side u.1
          (match side with
           | Side.ask => sortAsc (Book.keys st.asks)
           | Side.bid => sortDesc (Book.keys st.bids)) := by
    unfold depth_of_price
    rw [ensureSorted_of_none st h1 h2]
    cases side <;> simp [setCaches]
  rw [hd]

/-- A whole fold of fixed-view steps commutes with overwriting the caches
of the starting state. -/
theorem foldl_stepFixed_setCaches (A B : List ℚ) (side : Side) (idx : ℕ)
    (us : List (ℚ × ℚ)) :
    ∀ (st : Extractor) (ca cb : Option (List ℚ)) (evs : List LOBEvent),
      us.foldl (stepFixed A B side idx) (setCaches st ca cb, evs)
        = ((setCaches (us.foldl (stepFixed A B side idx) (st, evs)).1 ca cb),
           (us.foldl (stepFixed A B side idx) (st, evs)).2) := by
  induction us with
  | nil => intro st ca cb evs; rfl
  | cons u us ih =>
    intro st ca cb evs
    rw [List.foldl_cons, List.foldl_cons]
    show us.foldl (stepFixed A B side idx)
        ((processUpdateFixed A B side idx (setCaches st ca cb) u).1,
         evs ++ (processUpdateFixed A B side idx (setCaches st ca cb) u).2) = _
    rw [processUpdateFixed_setCaches]
    exact ih _ _ _ _

/-- While both caches stay filled with `A` and `B`, the real fold and the
fixed-view fold coincide. -/
theorem foldl_cached (A B : List ℚ) (side : Side) (idx : ℕ)
    (us : List (ℚ × ℚ)) :
    ∀ (st : Extractor) (evs : List LOBEvent), st.sorted_asks = some A →
      st.sorted_bids = some B →
      us.foldl (stepUpdate side idx) (st, evs)
        = us.foldl (stepFixed A B side idx) (st, evs) := by
  induction us with
  | nil => intro st evs _ _; rfl
  | cons u us ih =>
    intro st evs h1 h2
    rw [List.foldl_cons, List.foldl_cons]
    show us.foldl (stepUpdate side idx)
        ((processUpdate side idx st u).1, evs ++ (processUpdate side idx st u).2) = _
    rw [processUpdate_cached A B side idx st u h1 h2]
    exact ih _ _
      (by rw [sorted_asks_processUpdateFixed]; exact h1)
      (by rw [sorted_bids_processUpdateFixed]; exact h2)

theorem stepUpdate_pair (side : Side) (idx : ℕ) (st : Extractor)
    (evs : List LOBEvent) (u : ℚ × ℚ) :
    stepUpdate side idx (st, evs) u
      = ((processUpdate side idx st u).1, evs ++ (processUpdate side idx st u).2) := rfl

theorem stepFixed_pair (A B : List ℚ) (side : Side) (idx : ℕ) (st : Extractor)
    (evs : List LOBEvent) (u : ℚ × ℚ) :
    stepFixed A B side idx (st, evs) u
      = ((processUpdateFixed A B side idx st u).1,
         evs ++ (processUpdateFixed A B side idx st u).2) := rfl

/-- Starting from a state whose caches are stale, as at every public entry
into `process_delta`, the lazily cached implementation coincides with the
fixed pre-batch-view formulation. -/
theorem process_delta_prebatch_eq (st : Extractor) (asks bids : List (ℚ × ℚ))
    (idx : ℕ) (h1 : st.sorted_asks = none) (h2 : st.sorted_bids = none) :
    process_delta st asks bids idx = process_delta_prebatch st asks bids idx := by
  simp only [process_delta, process_delta_prebatch]
  cases asks with
  | nil =>
    simp only [List.foldl_nil]
    cases bids with
    | nil => rfl
    | cons v bs =>
      rw [List.foldl_cons, List.foldl_cons, stepUpdate_pair, stepFixed_pair,
        processUpdate_uncached _ _ _ _ h1 h2,
        foldl_cached _ _ Side.bid idx bs _ _ rfl rfl,
        foldl_stepFixed_setCaches]
      simp [invalidateSorted_setCaches]
  | cons u as =>
    rw [List.foldl_cons, List.foldl_cons, stepUpdate_pair, stepFixed_pair,
      processUpdate_uncached _ _ _ _ h1 h2,
      foldl_cached _ _ Side.ask idx as _ _ rfl rfl,
      foldl_stepFixed_setCaches,
      foldl_cached _ _ Side.bid idx bids _ _ rfl rfl,
      foldl_stepFixed_setCaches]
    simp [invalidateSorted_setCaches]

/-! Further preservation facts and auxiliary definitions for the claims. -/

theorem last_mid_process_snapshot (s : Extractor) (a b : List (ℚ × ℚ)) :
    (process_snapshot s a b).last_mid_price = s.last_mid_price := rfl

theorem last_mid_process_delta (st : Extractor) (a b : List (ℚ × ℚ)) (idx : ℕ) :
    (process_delta st a b idx).1.last_mid_price = st.last_mid_price := by
  rw [process_delta_eq, last_mid_invalidateSorted, last_mid_sideFinal,
    last_mid_sideFinal]

/-- Every per-update contribution of a batch holds at most one event. -/
theorem len_le_one_sideTrace (side : Side) (idx : ℕ) (us : List (ℚ × ℚ)) :
    ∀ st : Extractor, ∀ l ∈ sideTrace side idx us st, l.length ≤ 1 := by
  induction us with
  | nil => intro st l hl; simp [sideTrace] at hl
  | cons u us ih =>
    intro st l hl
    rw [sideTrace] at hl
    rcases List.mem_cons.mp hl with h | h
    · subst h
      rw [processUpdate_eq]
      exact classifyUpdate_length _ _ _ _ _ _ _ _
    · exact ih _ l h

/-- No stored level has volume zero. -/
def noZeroLevels (b : Book) : Prop := ∀ pv ∈ b, pv.2 ≠ 0

theorem noZero_pop (b : Book) (p : ℚ) (h : noZeroLevels b) :
    noZeroLevels (Book.pop b p) :=
  fun pv hm => h pv (List.mem_of_mem_filter hm)

theorem noZero_set (b : Book) (p v : ℚ) (hv : v ≠ 0) (h : noZeroLevels b) :
    noZeroLevels (Book.set b p v) := by
  intro pv hm
  unfold Book.set at hm
  split_ifs at hm
  · rcases List.mem_map.mp hm with ⟨qw, hqw, heq⟩
    by_cases hq : qw.1 = p
    · rw [if_pos hq] at heq
      rw [← heq]
      exact hv
    · rw [if_neg hq] at heq
      rw [← heq]
      exact h qw hqw
  · rcases List.mem_append.mp hm with h1 | h1
    · exact h pv h1
    · have : pv = (p, v) := List.mem_singleton.mp h1
      rw [this]
      exact hv

theorem noZero_mutate (b : Book) (p v : ℚ) (h : noZeroLevels b) :
    noZeroLevels (mutate b p v) := by
  by_cases hv : v = 0
  · rw [mutate, if_pos hv]
    exact noZero_pop b p h
  · rw [mutate, if_neg hv]
    exact noZero_set b p v hv h

theorem noZero_processUpdate (side : Side) (idx : ℕ) (st : Extractor)
    (u : ℚ × ℚ) (h : ∀ t, noZeroLevels (bookOf st t)) :
    ∀ t, noZeroLevels (bookOf (processUpdate side idx st u).1 t) := by
  intro t
  by_cases hst : side = t
  · subst hst
    rw [bookOf_processUpdate_same]
    exact noZero_mutate _ _ _ (h side)
  · rw [bookOf_processUpdate_other _ _ _ _ _ hst]
    exact h t

theorem noZero_sideFinal (side : Side) (idx : ℕ) (us : List (ℚ × ℚ)) :
    ∀ st : Extractor, (∀ t, noZeroLevels (bookOf st t)) →
      ∀ t, noZeroLevels (bookOf (sideFinal side idx us st) t) := by
  induction us with
  | nil => intro st h; exact h
  | cons u us ih =>
    intro st h
    rw [sideFinal]
    exact ih _ (noZero_processUpdate side idx st u h)

/-- Modelled from the spec, section 4.4: the canonical mid-price change
rule (no previous observation ⇒ changed; Invalid to Invalid ⇒ unchanged;
any transition between Invalid and Valid ⇒ changed; Valid to Valid ⇒
changed exactly when the values differ).  The repository has no single
function for this; the rule is stated in the spec to resolve the two
inconsistent driver call sites. -/
def hasChangedCanonical : Option PyFloat → PyFloat → Bool
  | none, _ => true
  | some PyFloat.nan, PyFloat.nan => false
  | some PyFloat.nan, PyFloat.num _ => true
  | some (PyFloat.num _), PyFloat.nan => true
  | some (PyFloat.num a), PyFloat.num b => decide (a ≠ b)

/-! Theorem for each claim. -/

/-- C1, counterexample: after a snapshot with asks 101 and 102 (volume 5
each) and bid 100 (volume 5), a delta removing ask 101 emits one event
whose recorded mid price is 201/2, the observation before the removal,
while the observation of the book after this update's own mutation is 101;
the two differ, so the event does not carry the post-mutation observation
the claim requires. -/
theorem c1_counterexample :
    (process_delta (process_snapshot (initExtractor 50) [(101, 5), (102, 5)]
        [(100, 5)]) [(101, 0)] [] 1).2.map LOBEvent.mid_price
      = [PyFloat.num (201 / 2)]
    ∧ midPriceState (process_delta (process_snapshot (initExtractor 50)
        [(101, 5), (102, 5)] [(100, 5)]) [(101, 0)] [] 1).1 = PyFloat.num 101
    ∧ PyFloat.num (201 / 2) ≠ PyFloat.num 101 := by decide

/-- C1 (amended): the mid price recorded on every event emitted inside a
delta batch is the observation of the book at the entry of the update that
produced it: all earlier updates of the batch are applied, the update's
own mutation is not yet. -/
theorem c1_mid_price_entry_state (side : Side) (idx : ℕ) (us : List (ℚ × ℚ))
    (st : Extractor) :
    ∀ pr ∈ (stateTrace side idx us st).zip (sideTrace side idx us st),
      ∀ e ∈ pr.2, e.mid_price = midPriceState pr.1 := by
  induction us generalizing st with
  | nil => intro pr hpr; simp [stateTrace, sideTrace] at hpr
  | cons u us ih =>
    intro pr hpr e he
    rw [stateTrace, sideTrace, List.zip_cons_cons] at hpr
    rcases List.mem_cons.mp hpr with h | h
    · subst h
      rw [processUpdate_eq] at he
      exact (mem_classifyUpdate he).2.2.1
    · exact ih _ pr h e he

/-- C1 witness: the single event of a concrete one-update batch carries
the mid price of the pre-update state. -/
theorem c1_mid_price_entry_state_evidence :
    (LOBEvent.mk "sell_limit_canceled" 101 2 0 0 (PyFloat.num (201 / 2)) 5
        (2 / 5)).mid_price
      = midPriceState (process_snapshot (initExtractor 50) [(101, 5)] [(100, 5)]) :=
  c1_mid_price_entry_state Side.ask 0 [(101, 3)]
    (process_snapshot (initExtractor 50) [(101, 5)] [(100, 5)])
    (process_snapshot (initExtractor 50) [(101, 5)] [(100, 5)],
      [LOBEvent.mk "sell_limit_canceled" 101 2 0 0 (PyFloat.num (201 / 2)) 5
        (2 / 5)])
    (by decide)
    (LOBEvent.mk "sell_limit_canceled" 101 2 0 0 (PyFloat.num (201 / 2)) 5
      (2 / 5))
    (by decide)

/-- C2, counterexample: a delta repeating the price 100 on the ask side
records previous volumes 0 and then 5 on its two events, although the
pre-batch volume at 100 is 0; the second event therefore does not record
the pre-batch value the claim requires. -/
theorem c2_counterexample :
    (process_delta (initExtractor 50) [(100, 5), (100, 7)] [] 0).2.map
        LOBEvent.previous_vol = [0, 5]
    ∧ Book.get (initExtractor 50).asks 100 = 0
    ∧ (5 : ℚ) ≠ 0 := by decide

/-- C2 (amended): the previous volume used for classification and recorded
on an event is the volume stored at that price at the moment the update is
processed, i.e. it reflects earlier updates of the same batch to the same
price, not the pre-batch value. -/
theorem c2_previous_vol_live_state (side : Side) (idx : ℕ) (us : List (ℚ × ℚ))
    (st : Extractor) :
    ∀ pr ∈ (us.zip (stateTrace side idx us st)).zip (sideTrace side idx us st),
      ∀ e ∈ pr.2, e.previous_vol = Book.get (bookOf pr.1.2 side) pr.1.1.1 := by
  induction us generalizing st with
  | nil => intro pr hpr; simp [stateTrace, sideTrace] at hpr
  | cons u us ih =>
    intro pr hpr e he
    rw [stateTrace, sideTrace, List.zip_cons_cons, List.zip_cons_cons] at hpr
    rcases List.mem_cons.mp hpr with h | h
    · subst h
      rw [processUpdate_eq] at he
      exact (mem_classifyUpdate he).2.2.2.1
    · exact ih _ pr h e he

/-- C2 witness: the single event of a concrete one-update batch records
the volume stored when the update is reached. -/
theorem c2_previous_vol_live_state_evidence :
    (LOBEvent.mk "sell_limit_added" 100 5 0 0 PyFloat.nan 0 1).previous_vol
      = Book.get (bookOf (initExtractor 50) Side.ask) 100 :=
  c2_previous_vol_live_state Side.ask 0 [(100, 5)] (initExtractor 50)
    ((((100 : ℚ), (5 : ℚ)), initExtractor 50),
      [LOBEvent.mk "sell_limit_added" 100 5 0 0 PyFloat.nan 0 1])
    (by decide)
    (LOBEvent.mk "sell_limit_added" 100 5 0 0 PyFloat.nan 0 1)
    (by decide)

/-- C3, counterexample: feeding `infer_events_from_lines` two deltas that
each leave the bid side empty records two Invalid observations: the second
one is an Invalid observation following an Invalid observation, which the
canonical rule never reports, yet the driver reports it. -/
theorem c3_counterexample :
    (infer_events_from_lines
        [Msg.delta [(101, 1)] [], Msg.delta [(102, 1)] []]).2
      = [PyFloat.nan, PyFloat.nan]
    ∧ hasChangedCanonical (some PyFloat.nan) PyFloat.nan = false := by decide

/-- C3 (amended): the gate used by `infer_events_from_lines` reports a
change when no previous observation is recorded or when the previous one
compares unequal under the Python float inequality, under which the nan
sentinel differs from everything including itself.  Hence the first delta
observation, every transition between Invalid and Valid, and Valid pairs
with different values are reported, as the canonical rule asks, but an
Invalid observation following an Invalid one is reported as well: the gate
is the canonical rule weakened exactly there.  (`parse_file` never gets to
apply any rule: its gate raises, see C5.) -/
theorem c3_gate_rule (a b : ℚ) :
    midGate none PyFloat.nan = true
    ∧ midGate none (PyFloat.num a) = true
    ∧ midGate (some PyFloat.nan) PyFloat.nan = true
    ∧ midGate (some PyFloat.nan) (PyFloat.num b) = true
    ∧ midGate (some (PyFloat.num a)) PyFloat.nan = true
    ∧ midGate (some (PyFloat.num a)) (PyFloat.num b) = decide (a ≠ b)
    ∧ (∀ (last : Option PyFloat) (mid : PyFloat),
        midGate last mid
          = (hasChangedCanonical last mid
             || (last == some PyFloat.nan && mid == PyFloat.nan))) := by
  refine ⟨rfl, rfl, rfl, rfl, rfl, rfl, ?_⟩
  intro last mid
  cases last with
  | none => cases mid <;> rfl
  | some f => cases f <;> cases mid <;>
      simp [midGate, pyNeO, pyNe, hasChangedCanonical]

/-- C4, counterexample: a snapshot whose ask list carries a zero-volume
pair stores that level verbatim, so a level with volume 0 is present in
the ask mapping right after a public operation. -/
theorem c4_counterexample :
    List.lookup 100 (process_snapshot (initExtractor 50) [(100, 0)] []).asks
      = some 0 := by decide

/-- C4 (amended): delta processing never stores a zero-volume level: if
neither side holds one when the batch starts, neither side holds one when
it ends (a new volume of 0 removes the level instead).  Snapshot
replacement, by contrast, copies the given pairs verbatim and can store
zero-volume levels, as the counterexample shows. -/
theorem c4_delta_preserves_no_zero (st : Extractor) (asks bids : List (ℚ × ℚ))
    (idx : ℕ) (ha : noZeroLevels st.asks) (hb : noZeroLevels st.bids) :
    noZeroLevels (process_delta st asks bids idx).1.asks
    ∧ noZeroLevels (process_delta st asks bids idx).1.bids := by
  have h : ∀ t, noZeroLevels (bookOf st t) := by
    intro t; cases t; exacts [ha, hb]
  have h2 := noZero_sideFinal Side.bid idx bids _
    (noZero_sideFinal Side.ask idx asks st h)
  rw [process_delta_eq]
  exact ⟨h2 Side.ask, h2 Side.bid⟩

/-- C4 witness: a concrete delta batch from the empty book leaves both
sides free of zero-volume levels. -/
theorem c4_delta_preserves_no_zero_evidence :
    noZeroLevels (process_delta (initExtractor 50) [(100, 5)] [(99, 0)] 0).1.asks
    ∧ noZeroLevels (process_delta (initExtractor 50) [(100, 5)] [(99, 0)] 0).1.bids :=
  c4_delta_preserves_no_zero (initExtractor 50) [(100, 5)] [(99, 0)] 0
    (by intro pv h; simp [initExtractor] at h)
    (by intro pv h; simp [initExtractor] at h)

/-- C5: on any nonempty message list the first iteration of `parse_file`
evaluates `math.isnan(last_mid_price)` while that attribute is still
`None` and raises `TypeError` before yielding anything, so `parse_file`
never yields a tuple (on an empty input it terminates without yielding). -/
theorem c5_parse_file_type_error (max_depth : ℤ) (msgs : List Msg) :
    parse_file max_depth msgs
      = if msgs.isEmpty then Except.ok [] else Except.error PyError.typeError := by
  cases msgs with
  | nil => rfl
  | cons m rest =>
    cases m with
    | snapshot a b =>
      have h : (process_snapshot (initExtractor max_depth) a b).last_mid_price
          = none := rfl
      simp [parse_file, parseLoop, h, isnanPy]
    | delta a b =>
      have h : (process_delta (initExtractor max_depth) a b 0).1.last_mid_price
          = none := by
        rw [last_mid_process_delta]
        rfl
      simp [parse_file, parseLoop, h, isnanPy]

/-- C6: in any delta batch every emitted event has depth strictly below
the threshold (so an update whose pre-batch depth reaches the threshold
contributes no event), while the mutation is applied unconditionally:
afterwards the stored volume at any price that occurs in the batch (0
standing for an absent level) is the last new volume given for it there. -/
theorem c6_depth_gate_and_unconditional_mutation (st : Extractor)
    (asks bids : List (ℚ × ℚ)) (idx : ℕ) :
    (∀ e ∈ (process_delta st asks bids idx).2, (e.depth : ℤ) < st.max_depth)
    ∧ (∀ p v, lastVol asks p = some v →
        Book.get (process_delta st asks bids idx).1.asks p = v)
    ∧ (∀ p v, lastVol bids p = some v →
        Book.get (process_delta st asks bids idx).1.bids p = v) := by
  refine ⟨?_, ?_, ?_⟩
  · intro e he
    rw [process_delta_eq] at he
    rcases List.mem_append.mp he with h | h
    · rcases List.mem_flatten.mp h with ⟨l, hl, hel⟩
      exact depth_lt_sideTrace Side.ask idx asks st l hl e hel
    · rcases List.mem_flatten.mp h with ⟨l, hl, hel⟩
      have h3 := depth_lt_sideTrace Side.bid idx bids _ l hl e hel
      rwa [max_depth_sideFinal] at h3
  · intro p v hv
    rw [process_delta_eq]
    show Book.get
      (bookOf (sideFinal Side.bid idx bids (sideFinal Side.ask idx asks st))
        Side.ask) p = v
    rw [bookOf_sideFinal_other Side.bid Side.ask idx bids (by decide),
      get_sideFinal, hv]
    rfl
  · intro p v hv
    rw [process_delta_eq]
    show Book.get
      (bookOf (sideFinal Side.bid idx bids (sideFinal Side.ask idx asks st))
        Side.bid) p = v
    rw [get_sideFinal, hv]
    rfl

/-- C6 witness: concrete batch exercising the gate bound and both
last-volume equations, including a removal recorded as volume 0. -/
theorem c6_depth_gate_and_unconditional_mutation_evidence :
    ((LOBEvent.mk "sell_limit_added" 100 5 0 0 PyFloat.nan 0 1).depth : ℤ) < 50
    ∧ Book.get (process_delta (initExtractor 50) [(100, 5)] [(99, 0)] 0).1.asks
        100 = 5
    ∧ Book.get (process_delta (initExtractor 50) [(100, 5)] [(99, 0)] 0).1.bids
        99 = 0 := by
  refine ⟨?_, ?_, ?_⟩
  · exact (c6_depth_gate_and_unconditional_mutation (initExtractor 50)
      [(100, 5)] [(99, 0)] 0).1 _ (by decide)
  · exact (c6_depth_gate_and_unconditional_mutation (initExtractor 50)
      [(100, 5)] [(99, 0)] 0).2.1 100 5 (by decide)
  · exact (c6_depth_gate_and_unconditional_mutation (initExtractor 50)
      [(100, 5)] [(99, 0)] 0).2.2 99 0 (by decide)

/-- C7: starting from stale caches, as at every public call, the real
batch equals the reference batch that ranks every update of both sides
against the sorted views captured once at the start of the batch, and both
views are left invalidated when the batch ends. -/
theorem c7_prebatch_views (st : Extractor) (asks bids : List (ℚ × ℚ))
    (idx : ℕ) (h1 : st.sorted_asks = none) (h2 : st.sorted_bids = none) :
    process_delta st asks bids idx = process_delta_prebatch st asks bids idx
    ∧ (process_delta st asks bids idx).1.sorted_asks = none
    ∧ (process_delta st asks bids idx).1.sorted_bids = none := by
  refine ⟨process_delta_prebatch_eq st asks bids idx h1 h2, ?_, ?_⟩
  · rw [process_delta_eq]
    rfl
  · rw [process_delta_eq]
    rfl

/-- C7 witness: a concrete two-sided batch from a freshly built snapshot
state. -/
theorem c7_prebatch_views_evidence :
    process_delta (process_snapshot (initExtractor 50) [(101, 5)] [(100, 5)])
        [(101, 2), (102, 1)] [(100, 0)] 3
      = process_delta_prebatch
          (process_snapshot (initExtractor 50) [(101, 5)] [(100, 5)])
          [(101, 2), (102, 1)] [(100, 0)] 3
    ∧ (process_delta (process_snapshot (initExtractor 50) [(101, 5)] [(100, 5)])
        [(101, 2), (102, 1)] [(100, 0)] 3).1.sorted_asks = none
    ∧ (process_delta (process_snapshot (initExtractor 50) [(101, 5)] [(100, 5)])
        [(101, 2), (102, 1)] [(100, 0)] 3).1.sorted_bids = none :=
  c7_prebatch_views (process_snapshot (initExtractor 50) [(101, 5)] [(100, 5)])
    [(101, 2), (102, 1)] [(100, 0)] 3 rfl rfl

/-- C8: the depth scan returns the index of the first entry that is close
to the query price or that the query has passed under the side's ordering
(entry at or above the price for asks, at or below for bids), and returns
the length of the sequence when no entry satisfies either test. -/
theorem c8_rank_first_match (side : Side) (price : ℚ) (ps : List ℚ) :
    depthAux side price ps
      = ps.findIdx (fun p => isclose p price
          || (side == Side.ask && decide (price ≤ p))
          || (side == Side.bid && decide (p ≤ price)))
    ∧ ((∀ p ∈ ps, hit side price p = false)
        → depthAux side price ps = ps.length) := by
  constructor
  · induction ps with
    | nil => rfl
    | cons p ps ih =>
      cases hh : hit side price p
      · have hb : (fun q => isclose q price
            || (side == Side.ask && decide (price ≤ q))
            || (side == Side.bid && decide (q ≤ price))) p = false := hh
        simp [depthAux, List.findIdx_cons, hb, hh, ih]
      · have hb : (fun q => isclose q price
            || (side == Side.ask && decide (price ≤ q))
            || (side == Side.bid && decide (q ≤ price))) p = true := hh
        simp [depthAux, List.findIdx_cons, hb, hh]
  · intro hall
    induction ps with
    | nil => rfl
    | cons p ps ih =>
      rw [depthAux, hall p (by simp), if_neg (by simp),
        ih (fun q hq => hall q (by simp [hq]))]
      rfl

/-- C8 witness: a query past every entry gets the sequence length as its
rank. -/
theorem c8_rank_first_match_evidence :
    depthAux Side.ask 100 [3] = ([3] : List ℚ).length :=
  (c8_rank_first_match Side.ask 100 [3]).2 (by decide)

/-- C9: the events of a delta are exactly the concatenation of the ask
contributions, in ask input order, followed by the bid contributions, in
bid input order, each update contributing at most one event. -/
theorem c9_ask_before_bid_order (st : Extractor) (asks bids : List (ℚ × ℚ))
    (idx : ℕ) :
    (process_delta st asks bids idx).2
      = (sideTrace Side.ask idx asks st).flatten
        ++ (sideTrace Side.bid idx bids (sideFinal Side.ask idx asks st)).flatten
    ∧ ∀ l ∈ sideTrace Side.ask idx asks st
            ++ sideTrace Side.bid idx bids (sideFinal Side.ask idx asks st),
        l.length ≤ 1 := by
  constructor
  · rw [process_delta_eq]
  · intro l hl
    rcases List.mem_append.mp hl with h | h
    · exact len_le_one_sideTrace Side.ask idx asks st l h
    · exact len_le_one_sideTrace Side.bid idx bids _ l h

/-- C9 witness: the single ask contribution of a concrete batch has at
most one event. -/
theorem c9_ask_before_bid_order_evidence :
    [LOBEvent.mk "sell_limit_added" 100 5 0 0 PyFloat.nan 0 1].length ≤ 1 :=
  (c9_ask_before_bid_order (initExtractor 50) [(100, 5)] [] 0).2
    [LOBEvent.mk "sell_limit_added" 100 5 0 0 PyFloat.nan 0 1] (by decide)

/-- C10: an update removing a price that is not stored (previous volume
0), at depth below the threshold, still emits one degenerate event -
the market action of its side with volume 0, previous volume 0 and
normalized change 1 - and the stored volume at that price stays 0. -/
theorem c10_degenerate_removal (side : Side) (idx : ℕ) (st : Extractor)
    (p : ℚ) (hprev : Book.get (bookOf st side) p = 0)
    (hdepth : ((depth_of_price st p side).1 : ℤ) < st.max_depth) :
    (processUpdate side idx st (p, 0)).2
      = [LOBEvent.mk (marketAction side) p 0 (depth_of_price st p side).1 idx
          (midPriceState st) 0 1]
    ∧ Book.get (bookOf (processUpdate side idx st (p, 0)).1 side) p = 0 := by
  constructor
  · rw [processUpdate_eq]
    simp [classifyUpdate, hprev, hdepth]
  · rw [bookOf_processUpdate_same, Book.get_mutate]
    simp

/-- C10 witness: removing an absent price from the empty book at depth 0
with threshold 50. -/
theorem c10_degenerate_removal_evidence :
    (processUpdate Side.ask 0 (initExtractor 50) (100, 0)).2
      = [LOBEvent.mk (marketAction Side.ask) 100 0
          (depth_of_price (initExtractor 50) 100 Side.ask).1 0
          (midPriceState (initExtractor 50)) 0 1]
    ∧ Book.get (bookOf (processUpdate Side.ask 0 (initExtractor 50)
        (100, 0)).1 Side.ask) 100 = 0 :=
  c10_degenerate_removal Side.ask 0 (initExtractor 50) 100 (by decide)
    (by decide)
